import Mathlib

/-!
Shallow embedding of the DupliFinder duplicate-detection engine
(`file_scanner.py`, `pdf_similarity.py`, `file_monitor.py`).

Modelling conventions:
* file contents are `List ℕ` (byte sequences); the filesystem is a partial
  map `String → Option (List ℕ)` (`none` = vanished / permission denied);
* the MD5 digest is an abstract parameter `md5hex : List ℕ → String`;
  `hashlib`'s incremental interface satisfies `update a; update b =
  update (a ++ b)`, so the streamed digest is the digest of the
  concatenation of the chunks read;
* Python objects (`FileInfo` dataclass instances) are mutable and shared
  between the inventory and the various dict-of-list registries; we model
  object identity with a record store `records : List FileInfo` and record
  ids (positions), the registries holding ids;
* Python `dict`s preserve insertion order; we model them as association
  lists with append-at-end insertion;
* floats only ever hold exact Jaccard ratios here, so scores are `ℚ`.
-/

/-- The FileInfo dataclass of `file_scanner.py`: path, name, size, modified
timestamp, optional content hash, optional similarity-group id. -/
structure FileInfo where
  path : String
  name : String
  size : ℕ
  modified : ℤ
  content_hash : Option String := none
  similarity_group : Option String := none
deriving DecidableEq, Repr, Inhabited

/-- Lookup in an insertion-ordered dict (first entry with the key). -/
def alistGet {α : Type} (m : List (String × α)) (k : String) : Option α :=
  match m with
  | [] => none
  | (k', v) :: rest => if k' = k then some v else alistGet rest k

/-- Python `if k not in m: m[k] = []` followed by `m[k].append(v)`: append `v` to
the list at key `k`, creating the key at the end if absent. -/
def alistAppend {α : Type} (m : List (String × List α)) (k : String) (v : α) :
    List (String × List α) :=
  match m with
  | [] => [(k, [v])]
  | (k', l) :: rest =>
      if k' = k then (k', l ++ [v]) :: rest else (k', l) :: alistAppend rest k v

/-- Python `m[k] = v`: overwrite in place if the key exists, else append. -/
def alistSet {α : Type} (m : List (String × α)) (k : String) (v : α) :
    List (String × α) :=
  match m with
  | [] => [(k, v)]
  | (k', w) :: rest =>
      if k' = k then (k, v) :: rest else (k', w) :: alistSet rest k v

/-- Structural worker for `chunksOf`: the fuel argument only bounds the
recursion (the read loop consumes at least one byte per iteration when the
chunk size is positive, so fuel `l.length` is enough). -/
def chunksOfAux (n : ℕ) : ℕ → List ℕ → List (List ℕ)
  | _, [] => []
  | 0, _ :: _ => []
  | fuel + 1, c :: cs => ((c :: cs).take n) :: chunksOfAux n fuel ((c :: cs).drop n)

/-- Split a byte sequence into chunks of `n` bytes (the final chunk may be
shorter), as delivered by repeated `f.read(n)`.  `n = 0` never occurs in the
source (chunk sizes are 65536 and 4096). -/
def chunksOf (n : ℕ) (l : List ℕ) : List (List ℕ) :=
  chunksOfAux n l.length l

/-- Python `os.path.join root name` with the separator of the walk. -/
def joinPath (root name : String) : String := root ++ "/" ++ name

/-- Python `str.lower()` for the character lists modelling these strings. -/
def lowerString (s : String) : String := (s.toList.map Char.toLower).asString

/-- Python `str.endswith(suffixStr)`. -/
def endsWithStr (s suffixStr : String) : Bool :=
  suffixStr.toList.isSuffixOf s.toList

/-- Model of `\w` for ASCII text: alphanumeric or underscore. -/
def isWordChar (c : Char) : Bool := c.isAlphanum || c = '_'

/-- Worker for `splitWs`: `cur` is the (reversed) word being read. -/
def splitWsChars : List Char → List Char → List String
  | [], cur => if cur.isEmpty then [] else [cur.reverse.asString]
  | c :: cs, cur =>
      if c.isWhitespace then
        if cur.isEmpty then splitWsChars cs []
        else cur.reverse.asString :: splitWsChars cs []
      else splitWsChars cs (c :: cur)

/-- Python `str.split()` with no separator: split on whitespace runs and
drop empty pieces. -/
def splitWs (s : String) : List String := splitWsChars s.toList []

/-- Function `_tokenize_text` of `pdf_similarity.py`: lowercase, delete every
character matching `[^\w\s]`, split on whitespace. -/
def tokenize_text (text : String) : List String :=
  splitWs (((lowerString text).toList.filter
    (fun c => isWordChar c || c.isWhitespace)).asString)

/-- Function `_jaccard_similarity` of `pdf_similarity.py`: token-set Jaccard score;
either token set empty yields `0.0`. -/
def jaccard_similarity (text1 text2 : String) : ℚ :=
  let words1 : Finset String := (tokenize_text text1).toFinset
  let words2 : Finset String := (tokenize_text text2).toFinset
  if words1 = ∅ ∨ words2 = ∅ then 0
  else
    let intersection := (words1 ∩ words2).card
    let union := (words1 ∪ words2).card
    if union > 0 then (intersection : ℚ) / (union : ℚ) else 0

/-- Function `get_file_blocks` inside `_calculate_similarity_hash_based`: read the
file in 4096-byte chunks and collect the chunk digests as a set.  Opening a
missing/unreadable path raises, modelled as `Except.error`. -/
def get_file_blocks (md5hex : List ℕ → String)
    (readFn : String → Option (List ℕ)) (path : String) :
    Except Unit (Finset String) :=
  match readFn path with
  | none => .error ()
  | some content => .ok (((chunksOf 4096 content).map md5hex).toFinset)

/-- Function `_calculate_similarity_hash_based` of `pdf_similarity.py`: byte-block
Jaccard fallback tier. -/
def calculate_similarity_hash_based (md5hex : List ℕ → String)
    (readFn : String → Option (List ℕ)) (file1_path file2_path : String) :
    Except Unit ℚ :=
  match get_file_blocks md5hex readFn file1_path with
  | .error e => .error e
  | .ok blocks1 =>
    match get_file_blocks md5hex readFn file2_path with
    | .error e => .error e
    | .ok blocks2 =>
      if blocks1 = ∅ ∨ blocks2 = ∅ then .ok 0
      else
        let intersection := (blocks1 ∩ blocks2).card
        let union := (blocks1 ∪ blocks2).card
        .ok (if union > 0 then (intersection : ℚ) / (union : ℚ) else 0)

/-- Function `calculate_pdf_similarity` of `pdf_similarity.py`: tiered similarity.
The two text-extraction tiers call external libraries (PyPDF2, pdfminer)
and are abstract parameters returning a score or an error; a tier's error
falls through to the next tier, the last tier being the byte-block
fallback, whose error (if any) propagates to the caller. -/
def calculate_pdf_similarity
    (tier1 tier2 : String → String → Except Unit ℚ)
    (md5hex : List ℕ → String) (readFn : String → Option (List ℕ))
    (file1_path file2_path : String) : Except Unit ℚ :=
  match tier1 file1_path file2_path with
  | .ok v => .ok v
  | .error _ =>
    match tier2 file1_path file2_path with
    | .ok v => .ok v
    | .error _ => calculate_similarity_hash_based md5hex readFn file1_path file2_path

/-- Python `os.path.splitext` on a bare filename: split at the last dot,
unless every character before it is itself a dot (leading dots do not start
an extension). -/
def splitext (s : String) : String × String :=
  let cs := s.toList
  match ((List.range cs.length).filter (fun i => cs.getD i ' ' = '.')).getLast? with
  | none => (s, "")
  | some i =>
      if (cs.take i).all (fun c => c = '.') then (s, "")
      else ((cs.take i).asString, (cs.drop i).asString)

/-- The FileScanner class of `file_scanner.py`: one scan session.  The
registries hold record ids into `records` (Python holds shared mutable
`FileInfo` objects; record ids model object identity). -/
structure FileScanner where
  base_directory : String
  include_subdirs : Bool := true
  similarity_threshold : ℚ := 1
  file_extensions : Option (List String) := none
  records : List FileInfo := []
  file_inventory : List ℕ := []
  duplicate_map : List (String × List ℕ) := []
  name_map : List (String × List ℕ) := []
  similarity_groups : List (String × List ℕ) := []
deriving Repr

/-- Dereference a record id (out-of-range never occurs for states built by
the operations below). -/
def FileScanner.getRecord (s : FileScanner) (rid : ℕ) : FileInfo :=
  s.records.getD rid default

/-- Mutate the record object with id `rid` (all registries see the change). -/
def FileScanner.setRecord (s : FileScanner) (rid : ℕ) (fi : FileInfo) : FileScanner :=
  { s with records := s.records.set rid fi }

/-- Body of the inner loop of `FileScanner.inventory_files`: extension
filter, `os.stat` (failure skips the file), then append the fresh record to
the inventory and to the name map. -/
def inventoryStep (statFn : String → Option (ℕ × ℤ)) (root : String)
    (s : FileScanner) (file_name : String) : FileScanner :=
  let file_path := joinPath root file_name
  let keep := match s.file_extensions with
    | none => true
    | some exts => lowerString (splitext file_name).2 ∈ exts
  if !keep then s
  else
    match statFn file_path with
    | none => s
    | some stat =>
      let file_info : FileInfo :=
        { path := file_path, name := file_name, size := stat.1,
          modified := stat.2, content_hash := none, similarity_group := none }
      let rid := s.records.length
      { s with records := s.records ++ [file_info],
               file_inventory := s.file_inventory ++ [rid],
               name_map := alistAppend s.name_map file_name rid }

/-- Method `FileScanner.inventory_files`: reset the inventory, then walk the
tree.  The `os.walk` enumeration is an explicit argument
`walk : List (root, filenames)` in depth-first order; `statFn` models
`os.stat` (`none` = vanished or permission denied).  The name map is NOT
reset. -/
def inventory_files (walk : List (String × List String))
    (statFn : String → Option (ℕ × ℤ)) (s : FileScanner) : FileScanner :=
  let s := { s with file_inventory := [] }
  walk.foldl (fun t entry =>
    if !t.include_subdirs && entry.1 ≠ t.base_directory then t
    else entry.2.foldl (inventoryStep statFn entry.1) t) s

/-- Method `FileScanner._calculate_file_hash`: stream the file's bytes
through the digest in 64 KiB chunks.  By `hashlib`'s contract the digest of
a sequence of `update` calls is the digest of their concatenation, so the
streamed result is `md5hex` of the concatenation of the chunks. -/
def calculate_file_hash (md5hex : List ℕ → String) (content : List ℕ) : String :=
  md5hex ((chunksOf 65536 content).foldl (fun acc data => acc ++ data) [])

/-- All index pairs `(i, j)` with `i < j < n`, in the order of the two
nested loops of `FileScanner._group_similar_pdfs`. -/
def pairList (n : ℕ) : List (ℕ × ℕ) :=
  ((List.range n).map (fun i =>
    ((List.range n).filter (fun j => i < j)).map (fun j => (i, j)))).flatten

/-- Group id minted for a newly similar pair:
`f"sim_{hash(name)}_{i}_{j}"`; `pyHash` models Python's (per-process
randomized) string hash. -/
def mintId (pyHash : String → ℤ) (name : String) (i j : ℕ) : String :=
  "sim_" ++ toString (pyHash name) ++ "_" ++ toString i ++ "_" ++ toString j

/-- Body of the pair loop of `FileScanner._group_similar_pdfs`.  `simFn`
models `calculate_pdf_similarity` (`Except.error` = the call raised, caught
by the `except` and the pair skipped).  Python's `a or b or c` over the two
optional group ids picks the first non-`None` (group ids are never the
empty string); list membership (`not in`) compares dataclass values.
`addPairToGroup` is the tail of the loop body once the group id has been
chosen: assign the id to both records, create the group entry if absent, and
append each record to the group unless an equal record value is already
listed. -/
def addPairToGroup (s : FileScanner) (ri rj : ℕ) (group_id : String) : FileScanner :=
  let s := s.setRecord ri { s.getRecord ri with similarity_group := some group_id }
  let s := s.setRecord rj { s.getRecord rj with similarity_group := some group_id }
  let s :=
    if (alistGet s.similarity_groups group_id).isSome then s
    else { s with similarity_groups := s.similarity_groups ++ [(group_id, [])] }
  let cur1 := (alistGet s.similarity_groups group_id).getD []
  let s :=
    if (cur1.map s.getRecord).contains (s.getRecord ri) then s
    else { s with similarity_groups := alistAppend s.similarity_groups group_id ri }
  let cur2 := (alistGet s.similarity_groups group_id).getD []
  if (cur2.map s.getRecord).contains (s.getRecord rj) then s
  else { s with similarity_groups := alistAppend s.similarity_groups group_id rj }

def processPair (simFn : String → String → Except Unit ℚ) (pyHash : String → ℤ)
    (name : String) (files : List ℕ) (s : FileScanner) (ij : ℕ × ℕ) : FileScanner :=
  let ri := files.getD ij.1 0
  let rj := files.getD ij.2 0
  let fi := s.getRecord ri
  let fj := s.getRecord rj
  if fi.content_hash = fj.content_hash then s
  else
    match simFn fi.path fj.path with
    | .error _ => s
    | .ok similarity =>
      if s.similarity_threshold ≤ similarity then
        addPairToGroup s ri rj
          (((fi.similarity_group).orElse (fun _ => fj.similarity_group)).getD
            (mintId pyHash name ij.1 ij.2))
      else s

/-- Method `FileScanner._group_similar_pdfs`: skip when the inventory has no
PDFs, then for every name-map entry that is a PDF name with more than one
record, compare all pairs. -/
def group_similar_pdfs (simFn : String → String → Except Unit ℚ)
    (pyHash : String → ℤ) (s : FileScanner) : FileScanner :=
  let pdf_files := s.file_inventory.filter
    (fun rid => endsWithStr (lowerString (s.getRecord rid).path) ".pdf")
  if pdf_files = [] then s
  else
    s.name_map.foldl (fun t entry =>
      if !(endsWithStr (lowerString entry.1) ".pdf") || entry.2.length ≤ 1 then t
      else (pairList entry.2.length).foldl (processPair simFn pyHash entry.1 entry.2) t) s

/-- Loop body of `FileScanner.process_files` (as consumed by
`list(scanner.process_files())`): for EVERY inventory record, read and hash
it (a read failure skips the record), set its `content_hash`, append it to
the duplicate map under its hash, and yield `(record, hash)`.  The
accumulator is the state together with the pairs yielded so far. -/
def processStep (readFn : String → Option (List ℕ)) (md5hex : List ℕ → String)
    (acc : FileScanner × List (ℕ × String)) (rid : ℕ) :
    FileScanner × List (ℕ × String) :=
  let t := acc.1
  let fi := t.getRecord rid
  match readFn fi.path with
  | none => acc
  | some content =>
    let file_hash := calculate_file_hash md5hex content
    let t := t.setRecord rid { fi with content_hash := some file_hash }
    let t := { t with duplicate_map := alistAppend t.duplicate_map file_hash rid }
    (t, acc.2 ++ [(rid, file_hash)])

/-- Method `FileScanner.process_files`, fully consumed: hash every inventory
record via `processStep`, then run the PDF similarity grouping. -/
def process_files (readFn : String → Option (List ℕ)) (md5hex : List ℕ → String)
    (simFn : String → String → Except Unit ℚ) (pyHash : String → ℤ)
    (s : FileScanner) : FileScanner × List (ℕ × String) :=
  let res := s.file_inventory.foldl (processStep readFn md5hex) (s, [])
  (group_similar_pdfs simFn pyHash res.1, res.2)

/-- Method `FileScanner.get_duplicate_groups`: hash groups with more than one
member, then similarity groups with more than one member, merged into one
dict. -/
def get_duplicate_groups (s : FileScanner) : List (String × List ℕ) :=
  let results := s.duplicate_map.foldl
    (fun r entry => if entry.2.length > 1 then alistSet r entry.1 entry.2 else r) []
  s.similarity_groups.foldl
    (fun r entry => if entry.2.length > 1 then alistSet r entry.1 entry.2 else r) results

/-- Method `FileScanner.get_identical_names`: name-map entries with more than
one record. -/
def get_identical_names (s : FileScanner) : List (String × List ℕ) :=
  s.name_map.filter (fun entry => entry.2.length > 1)

/-- Python `os.path.basename` for paths joined with `/`: the characters
after the last separator. -/
def basename (p : String) : String :=
  ((p.toList.reverse.takeWhile (fun c => c ≠ '/')).reverse).asString

/-- The FileMonitor class of `file_monitor.py` (state only; the watchdog
observer delivers events from outside the model).  Log entries carry wall
clock timestamps in the source; the model keeps the event text. -/
structure FileMonitor where
  directory : String
  auto_organize : Bool := true
  organize_path : String
  activity_log : List String := []
  known_files : List (String × FileInfo) := []
deriving Repr

/-- Method `FileMonitor.log_activity` (the timestamp is wall clock, outside
the model). -/
def FileMonitor.logActivity (m : FileMonitor) (message : String) : FileMonitor :=
  { m with activity_log := m.activity_log ++ [message] }

/-- Destination candidates tried by `_organize_duplicate`'s collision loop:
first `organize_path/filename`, then `organize_path/{name}_{k}{ext}` for
`k = 1, 2, ...`. -/
def organize_candidate (organize_path filename : String) (k : ℕ) : String :=
  if k = 0 then joinPath organize_path filename
  else
    let ne := splitext filename
    joinPath organize_path (ne.1 ++ "_" ++ toString k ++ ne.2)

/-- The `while os.path.exists(dest_path)` loop of `_organize_duplicate`,
starting at candidate `k`; the loop has no bound in the source, so the model
carries explicit fuel (theorems quantify over sufficient fuel). -/
def find_dest (hasFile : String → Bool) (organize_path filename : String) :
    ℕ → ℕ → String
  | k, 0 => organize_candidate organize_path filename k
  | k, fuel + 1 =>
      if hasFile (organize_candidate organize_path filename k) then
        find_dest hasFile organize_path filename (k + 1) fuel
      else organize_candidate organize_path filename k

/-- Method `FileMonitor._organize_duplicate`: make the organize directory
(no effect on the file map), pick the first collision-free destination name,
`os.rename` the file there and log the outcome.  The modelled rename always
succeeds (the source logs a failure event otherwise). -/
def organize_duplicate (fuel : ℕ) (fs : String → Option (List ℕ))
    (m : FileMonitor) (file_path : String) :
    FileMonitor × (String → Option (List ℕ)) :=
  let filename := basename file_path
  let dest_path := find_dest (fun p => (fs p).isSome) m.organize_path filename 0 fuel
  let fs2 := fun p =>
    if p = dest_path then fs file_path
    else if p = file_path then none else fs p
  (m.logActivity ("Organized duplicate: " ++ filename ++ " → " ++ dest_path), fs2)

/-- Method `FileMonitor.process_new_file`: hash the new path (a raised
error is caught and logged), look the hash up in `known_files`; a hit logs a
duplicate-detected event and, with auto-organize on, relocates the file; a
miss records the file as known and logs a new-unique-file event.  Returns
the monitor and the file map after the event. -/
def process_new_file (fuel : ℕ) (md5hex : List ℕ → String) (mtimeFn : String → ℤ)
    (fs : String → Option (List ℕ)) (m : FileMonitor) (file_path : String) :
    FileMonitor × (String → Option (List ℕ)) :=
  match fs file_path with
  | none => (m.logActivity ("Error processing " ++ file_path), fs)
  | some content =>
    let file_hash := calculate_file_hash md5hex content
    match alistGet m.known_files file_hash with
    | some duplicate_file =>
      let m := m.logActivity
        ("Duplicate detected: " ++ basename file_path ++ " matches " ++ duplicate_file.name)
      if m.auto_organize then organize_duplicate fuel fs m file_path else (m, fs)
    | none =>
      let file_info : FileInfo :=
        { path := file_path, name := basename file_path, size := content.length,
          modified := mtimeFn file_path, content_hash := some file_hash,
          similarity_group := none }
      (({ m with known_files := alistSet m.known_files file_hash file_info }).logActivity
        ("New unique file: " ++ basename file_path), fs)

/-! ### Auxiliary definitions for the verification -/

/-- Unary encoding of a byte list into characters (injective digest used to
instantiate the negligible-collision idealisation of MD5 on concrete
inputs). -/
def encBytes : List ℕ → List Char
  | [] => []
  | b :: bs => List.replicate b 'a' ++ 'b' :: encBytes bs

/-- Decoder for `encBytes` (worker): count the current run of `'a'`s. -/
def decBytes : List Char → ℕ → List ℕ
  | [], _ => []
  | c :: cs, k => if c = 'a' then decBytes cs (k + 1) else k :: decBytes cs 0

/-- The injective concrete digest: unary encoding rendered as a string. -/
def encStr (l : List ℕ) : String := (encBytes l).asString

/-- Record paths are untouched by the similarity bookkeeping: relation used
as the invariant of the pair loop. -/
def pathsAgree (s t : FileScanner) : Prop :=
  ∀ q : ℕ, (s.getRecord q).path = (t.getRecord q).path

/-- All record ids listed in the exact-duplicate index, across all hash
keys, in order. -/
def dmapRids (m : List (String × List ℕ)) : List ℕ := (m.map Prod.snd).flatten

/-! ### Concrete fixtures used by witnesses and counterexamples -/

/-- A stat function under which every path is a regular file. -/
def demoStat : String → Option (ℕ × ℤ) := fun _ => some (1, 0)

/-- A read function giving each path distinct bytes (its own characters). -/
def demoRead : String → Option (List ℕ) := fun p => some (p.toList.map Char.toNat)

/-- Python's randomized per-process string hash, fixed to zero. -/
def demoHash : String → ℤ := fun _ => 0

/-- A similarity tier that always scores zero. -/
def demoSimZero : String → String → Except Unit ℚ := fun _ _ => .ok 0

/-- One-file scan session: inventory of `b/a.txt`. -/
def demoScanner : FileScanner :=
  inventory_files [("b", ["a.txt"])] demoStat { base_directory := "b" }

/-- Two byte-identical files scanned and hashed: one exact-duplicate group. -/
def demoDupScanner : FileScanner :=
  (process_files (fun _ => some [1]) encStr demoSimZero demoHash
    (inventory_files [("b", ["a.txt", "c.txt"])] demoStat
      { base_directory := "b" })).1

/-- First full consumption of `process_files` on the one-file session. -/
def demoRerun1 : FileScanner :=
  (process_files demoRead encStr demoSimZero demoHash demoScanner).1

/-- Second full consumption of `process_files` on the same session. -/
def demoRerun2 : FileScanner :=
  (process_files demoRead encStr demoSimZero demoHash demoRerun1).1

/-- Four same-named PDFs in four subdirectories. -/
def demoWalk4 : List (String × List String) :=
  [("base", []), ("base/d0", ["doc.pdf"]), ("base/d1", ["doc.pdf"]),
   ("base/d2", ["doc.pdf"]), ("base/d3", ["doc.pdf"])]

/-- Each of the four PDFs gets one distinct content byte (its directory
digit). -/
def demoRead4 : String → Option (List ℕ) :=
  fun p => some [(p.toList.getD 6 ' ').toNat]

/-- Similarity oracle: pairs (d0,d2), (d1,d3) and (d2,d3) score 1, the rest
score 0. -/
def demoSimPairs : String → String → Except Unit ℚ := fun p q =>
  if (p = "base/d0/doc.pdf" ∧ q = "base/d2/doc.pdf") ∨
     (p = "base/d1/doc.pdf" ∧ q = "base/d3/doc.pdf") ∨
     (p = "base/d2/doc.pdf" ∧ q = "base/d3/doc.pdf") then .ok 1 else .ok 0

/-- The four-PDF session after hashing and similarity grouping. -/
def demoSim4 : FileScanner :=
  (process_files demoRead4 encStr demoSimPairs demoHash
    (inventory_files demoWalk4 demoStat { base_directory := "base" })).1

/-- A walk that enumerates a file inside the recycle bin (as `os.walk`
does). -/
def demoRecycleScan : FileScanner :=
  inventory_files [("C:/base", []), ("C:/base/$RECYCLE.BIN", ["junk.txt"])]
    demoStat { base_directory := "C:/base" }

/-- A read function under which `b/bad.txt` is unreadable. -/
def demoBadRead : String → Option (List ℕ) :=
  fun p => if p = "b/bad.txt" then none else some [7]

/-- A session over one unreadable and one readable file, after hashing. -/
def demoMixedResult : FileScanner × List (ℕ × String) :=
  process_files demoBadRead encStr demoSimZero demoHash
    (inventory_files [("b", ["bad.txt", "good.txt"])] demoStat
      { base_directory := "b" })

/-- The record the monitor already knows under the hash of byte `9`. -/
def demoKnownInfo : FileInfo :=
  { path := "d/x.bin", name := "x.bin", size := 1, modified := 0,
    content_hash := some (encStr [9]), similarity_group := none }

/-- A monitor with one known file and auto-organize on. -/
def demoMonitor : FileMonitor :=
  { directory := "d", organize_path := "d/Auto_Organized",
    known_files := [(encStr [9], demoKnownInfo)] }

/-- Monitor filesystem: the new file duplicates the known one, and the two
first candidate names in the organize folder are taken. -/
def demoMonFs : String → Option (List ℕ) := fun p =>
  if p = "d/y.bin" then some [9]
  else if p = "d/Auto_Organized/y.bin" then some [1]
  else if p = "d/Auto_Organized/y_1.bin" then some [2]
  else none

/-- The one-file session inventoried a second time. -/
def demoScanner2 : FileScanner :=
  inventory_files [("b", ["a.txt"])] demoStat demoScanner

/-! ### Lemmas about chunked reading (Content Hasher) -/

theorem foldl_append_eq_append_flatten (L : List (List ℕ)) (a : List ℕ) :
    L.foldl (fun acc data => acc ++ data) a = a ++ L.flatten := by
  induction L generalizing a with
  | nil => simp
  | cons x xs ih => simp [ih, List.append_assoc]

theorem chunksOfAux_flatten {n : ℕ} (hn : n ≠ 0) :
    ∀ (fuel : ℕ) (l : List ℕ), l.length ≤ fuel →
      (chunksOfAux n fuel l).flatten = l := by
  intro fuel
  induction fuel with
  | zero =>
      intro l hl
      have : l = [] := List.length_eq_zero.mp (Nat.le_zero.mp hl)
      subst this
      rfl
  | succ fuel ih =>
      intro l hl
      cases l with
      | nil => rfl
      | cons c cs =>
          simp only [chunksOfAux, List.flatten_cons]
          have h1 : 1 ≤ n := Nat.one_le_iff_ne_zero.mpr hn
          have hlen : ((c :: cs).drop n).length ≤ fuel := by
            rw [List.length_drop]
            simp only [List.length_cons] at hl ⊢
            omega
          rw [ih ((c :: cs).drop n) hlen]
          exact List.take_append_drop n (c :: cs)

theorem chunksOf_flatten {n : ℕ} (hn : n ≠ 0) (l : List ℕ) :
    (chunksOf n l).flatten = l :=
  chunksOfAux_flatten hn l.length l le_rfl

theorem decBytes_replicate (b : ℕ) (rest : List Char) :
    ∀ k : ℕ, decBytes (List.replicate b 'a' ++ 'b' :: rest) k
      = (k + b) :: decBytes rest 0 := by
  induction b with
  | zero => intro k; simp [decBytes]
  | succ b ih =>
      intro k
      rw [List.replicate_succ, List.cons_append]
      show (if ('a' : Char) = 'a' then
              decBytes (List.replicate b 'a' ++ 'b' :: rest) (k + 1)
            else k :: decBytes (List.replicate b 'a' ++ 'b' :: rest) 0)
          = (k + (b + 1)) :: decBytes rest 0
      rw [if_pos rfl, ih (k + 1)]
      congr 1
      omega

theorem decBytes_encBytes (l : List ℕ) : decBytes (encBytes l) 0 = l := by
  induction l with
  | nil => rfl
  | cons b bs ih =>
      simp only [encBytes]
      rw [decBytes_replicate b (encBytes bs) 0, ih, Nat.zero_add]

theorem encStr_injective : Function.Injective encStr := by
  intro x y h
  have h2 : encBytes x = encBytes y := congrArg String.toList h
  calc x = decBytes (encBytes x) 0 := (decBytes_encBytes x).symm
    _ = decBytes (encBytes y) 0 := by rw [h2]
    _ = y := decBytes_encBytes y

/-- C8: the Content Hasher's fingerprint is a function of the byte content
alone: streaming through the digest in 64 KiB chunks (`_calculate_file_hash`)
equals digesting the whole content at once; the same holds for any nonzero
chunk size; and with the digest idealised as injective (collisions
negligible), fingerprints are equal iff the contents are byte-identical.
Determinism across repeated calls is immediate since the model is a pure
function of the content. -/
theorem file_hash_chunk_independent :
    (∀ (md5hex : List ℕ → String) (content : List ℕ),
       calculate_file_hash md5hex content = md5hex content) ∧
    (∀ (md5hex : List ℕ → String) (n : ℕ), n ≠ 0 → ∀ content : List ℕ,
       md5hex ((chunksOf n content).foldl (fun acc data => acc ++ data) [])
         = md5hex content) ∧
    (∀ md5hex : List ℕ → String, Function.Injective md5hex →
       ∀ c1 c2 : List ℕ,
         calculate_file_hash md5hex c1 = calculate_file_hash md5hex c2 ↔ c1 = c2) := by
  have hgen : ∀ (md5hex : List ℕ → String) (n : ℕ), n ≠ 0 → ∀ content : List ℕ,
      md5hex ((chunksOf n content).foldl (fun acc data => acc ++ data) [])
        = md5hex content := by
    intro md5hex n hn content
    rw [foldl_append_eq_append_flatten, List.nil_append, chunksOf_flatten hn]
  have h64 : ∀ (md5hex : List ℕ → String) (content : List ℕ),
      calculate_file_hash md5hex content = md5hex content := by
    intro md5hex content
    exact hgen md5hex 65536 (by norm_num) content
  refine ⟨h64, hgen, ?_⟩
  intro md5hex hinj c1 c2
  rw [h64, h64]
  exact ⟨fun h => hinj h, fun h => by rw [h]⟩

/-- Witness for C8 at concrete inputs, the digest instantiated with the
injective `encStr`. -/
theorem file_hash_chunk_independent_witness :
    calculate_file_hash encStr [1, 2, 3] = encStr [1, 2, 3] ∧
    encStr ((chunksOf 3 [1, 2, 3, 4]).foldl (fun acc data => acc ++ data) [])
      = encStr [1, 2, 3, 4] ∧
    (calculate_file_hash encStr [1, 2] = calculate_file_hash encStr [3] ↔
      ([1, 2] : List ℕ) = [3]) :=
  ⟨file_hash_chunk_independent.1 encStr [1, 2, 3],
   file_hash_chunk_independent.2.1 encStr 3 (by decide) [1, 2, 3, 4],
   file_hash_chunk_independent.2.2 encStr encStr_injective [1, 2] [3]⟩

/-! ### Lemmas about the similarity scores (Similarity Grouping Engine) -/

theorem jaccard_symm (t1 t2 : String) :
    jaccard_similarity t1 t2 = jaccard_similarity t2 t1 := by
  simp only [jaccard_similarity]
  by_cases h1 : (tokenize_text t1).toFinset = ∅
  · rw [if_pos (Or.inl h1), if_pos (Or.inr h1)]
  · by_cases h2 : (tokenize_text t2).toFinset = ∅
    · rw [if_pos (Or.inr h2), if_pos (Or.inl h2)]
    · rw [if_neg (show ¬((tokenize_text t1).toFinset = ∅ ∨
            (tokenize_text t2).toFinset = ∅) by tauto),
        if_neg (show ¬((tokenize_text t2).toFinset = ∅ ∨
            (tokenize_text t1).toFinset = ∅) by tauto),
        Finset.inter_comm, Finset.union_comm]

theorem jaccard_self (t : String) (h : (tokenize_text t).toFinset ≠ ∅) :
    jaccard_similarity t t = 1 := by
  simp only [jaccard_similarity, Finset.inter_self, Finset.union_self, or_self]
  rw [if_neg h]
  have hc : 0 < (tokenize_text t).toFinset.card :=
    Finset.card_pos.mpr (Finset.nonempty_iff_ne_empty.mpr h)
  rw [if_pos hc]
  exact div_self (by exact_mod_cast hc.ne')

theorem jaccard_empty (t1 t2 : String)
    (h : (tokenize_text t1).toFinset = ∅ ∨ (tokenize_text t2).toFinset = ∅) :
    jaccard_similarity t1 t2 = 0 := by
  simp only [jaccard_similarity]
  rw [if_pos h]

theorem hash_based_symm (md5hex : List ℕ → String)
    (readFn : String → Option (List ℕ)) (p q : String) :
    calculate_similarity_hash_based md5hex readFn p q
      = calculate_similarity_hash_based md5hex readFn q p := by
  cases hp : get_file_blocks md5hex readFn p with
  | error e =>
      cases hq : get_file_blocks md5hex readFn q with
      | error e2 =>
          simp only [calculate_similarity_hash_based, hp, hq]
      | ok b2 =>
          simp only [calculate_similarity_hash_based, hp, hq]
  | ok b1 =>
      cases hq : get_file_blocks md5hex readFn q with
      | error e2 =>
          simp only [calculate_similarity_hash_based, hp, hq]
      | ok b2 =>
          simp only [calculate_similarity_hash_based, hp, hq]
          by_cases h1 : b1 = ∅
          · rw [if_pos (Or.inl h1), if_pos (Or.inr h1)]
          · by_cases h2 : b2 = ∅
            · rw [if_pos (Or.inr h2), if_pos (Or.inl h2)]
            · rw [if_neg (show ¬(b1 = ∅ ∨ b2 = ∅) by tauto),
                if_neg (show ¬(b2 = ∅ ∨ b1 = ∅) by tauto),
                Finset.inter_comm, Finset.union_comm]

theorem hash_based_self (md5hex : List ℕ → String)
    (readFn : String → Option (List ℕ)) (p : String) (c : List ℕ)
    (hr : readFn p = some c) (hc : c ≠ []) :
    calculate_similarity_hash_based md5hex readFn p p = .ok 1 := by
  have hb : get_file_blocks md5hex readFn p
      = .ok (((chunksOf 4096 c).map md5hex).toFinset) := by
    simp [get_file_blocks, hr]
  have hne : ((chunksOf 4096 c).map md5hex).toFinset ≠ ∅ := by
    obtain ⟨x, xs, rfl⟩ : ∃ x xs, c = x :: xs := by
      cases c with
      | nil => exact absurd rfl hc
      | cons x xs => exact ⟨x, xs, rfl⟩
    simp only [chunksOf, List.length_cons, chunksOfAux, List.map_cons,
      List.toFinset_cons]
    exact Finset.insert_ne_empty _ _
  simp only [calculate_similarity_hash_based, hb]
  rw [if_neg (by simp [hne]), Finset.inter_self, Finset.union_self]
  have hcp : 0 < (((chunksOf 4096 c).map md5hex).toFinset).card :=
    Finset.card_pos.mpr (Finset.nonempty_iff_ne_empty.mpr hne)
  rw [if_pos hcp]
  have hnz : ((((chunksOf 4096 c).map md5hex).toFinset).card : ℚ) ≠ 0 := by
    exact_mod_cast hcp.ne'
  rw [div_self hnz]

theorem hash_based_empty (md5hex : List ℕ → String)
    (readFn : String → Option (List ℕ)) (p q : String) (cp cq : List ℕ)
    (h1 : readFn p = some cp) (h2 : readFn q = some cq)
    (h : cp = [] ∨ cq = []) :
    calculate_similarity_hash_based md5hex readFn p q = .ok 0 := by
  have hbp : get_file_blocks md5hex readFn p
      = .ok (((chunksOf 4096 cp).map md5hex).toFinset) := by
    simp [get_file_blocks, h1]
  have hbq : get_file_blocks md5hex readFn q
      = .ok (((chunksOf 4096 cq).map md5hex).toFinset) := by
    simp [get_file_blocks, h2]
  have hemp : ((chunksOf 4096 cp).map md5hex).toFinset = ∅ ∨
      ((chunksOf 4096 cq).map md5hex).toFinset = ∅ := by
    rcases h with h | h
    · left; subst h; rfl
    · right; subst h; rfl
  simp only [calculate_similarity_hash_based, hbp, hbq, if_pos hemp]

/-- C7: the similarity score is symmetric in both the token tier
(`_jaccard_similarity`) and the byte-block tier
(`_calculate_similarity_hash_based`); self-similarity is `1.0` whenever the
effective content (token set / block set) is non-empty; and an empty token
set or block set on either side yields `0.0` without raising. -/
theorem similarity_symm_refl_empty :
    (∀ t1 t2 : String, jaccard_similarity t1 t2 = jaccard_similarity t2 t1) ∧
    (∀ t : String, (tokenize_text t).toFinset ≠ ∅ → jaccard_similarity t t = 1) ∧
    (∀ t1 t2 : String,
       (tokenize_text t1).toFinset = ∅ ∨ (tokenize_text t2).toFinset = ∅ →
       jaccard_similarity t1 t2 = 0) ∧
    (∀ (md5hex : List ℕ → String) (readFn : String → Option (List ℕ)) (p q : String),
       calculate_similarity_hash_based md5hex readFn p q
         = calculate_similarity_hash_based md5hex readFn q p) ∧
    (∀ (md5hex : List ℕ → String) (readFn : String → Option (List ℕ)) (p : String)
       (c : List ℕ), readFn p = some c → c ≠ [] →
       calculate_similarity_hash_based md5hex readFn p p = .ok 1) ∧
    (∀ (md5hex : List ℕ → String) (readFn : String → Option (List ℕ)) (p q : String)
       (cp cq : List ℕ), readFn p = some cp → readFn q = some cq →
       cp = [] ∨ cq = [] →
       calculate_similarity_hash_based md5hex readFn p q = .ok 0) :=
  ⟨jaccard_symm, jaccard_self, jaccard_empty, hash_based_symm, hash_based_self,
   hash_based_empty⟩

/-- Witness for C7 at concrete inputs. -/
theorem similarity_symm_refl_empty_witness :
    jaccard_similarity "Hello, world!" "Hello, world!" = 1 ∧
    jaccard_similarity "!!!" "abc" = 0 ∧
    calculate_similarity_hash_based encStr (fun _ => some [7]) "a.pdf" "a.pdf" = .ok 1 ∧
    calculate_similarity_hash_based encStr
      (fun p => if p = "e.pdf" then some [] else some [7]) "e.pdf" "b.pdf" = .ok 0 :=
  ⟨similarity_symm_refl_empty.2.1 "Hello, world!" (by decide),
   similarity_symm_refl_empty.2.2.1 "!!!" "abc" (Or.inl (by decide)),
   similarity_symm_refl_empty.2.2.2.2.1 encStr (fun _ => some [7]) "a.pdf" [7]
     rfl (by decide),
   similarity_symm_refl_empty.2.2.2.2.2 encStr
     (fun p => if p = "e.pdf" then some [] else some [7]) "e.pdf" "b.pdf" [] [7]
     (by decide) (by decide) (Or.inl rfl)⟩

/-! ### Record-store lemmas -/

theorem getRecord_setRecord (s : FileScanner) (rid : ℕ) (fi : FileInfo) (q : ℕ) :
    (s.setRecord rid fi).getRecord q
      = if rid = q ∧ rid < s.records.length then fi else s.getRecord q := by
  unfold FileScanner.getRecord FileScanner.setRecord
  simp only [List.getD_eq_getElem?_getD, List.getElem?_set]
  by_cases h1 : rid = q
  · subst h1
    by_cases h2 : rid < s.records.length
    · rw [if_pos rfl, if_pos h2, if_pos ⟨rfl, h2⟩]
      rfl
    · rw [if_pos rfl, if_neg h2, if_neg (by tauto),
        List.getElem?_eq_none (by omega)]
  · rw [if_neg h1, if_neg (by tauto)]

theorem pathsAgree_refl (s : FileScanner) : pathsAgree s s := fun _ => rfl

theorem pathsAgree_trans {s t u : FileScanner} (h1 : pathsAgree s t)
    (h2 : pathsAgree t u) : pathsAgree s u := fun q => (h1 q).trans (h2 q)

theorem pathsAgree_setRecord (s : FileScanner) (rid : ℕ) (fi : FileInfo)
    (hp : fi.path = (s.getRecord rid).path) :
    pathsAgree (s.setRecord rid fi) s := by
  intro q
  rw [getRecord_setRecord]
  split
  · next h => rw [hp, h.1]
  · rfl

theorem addPairToGroup_pathsAgree (s : FileScanner) (ri rj : ℕ) (gid : String) :
    pathsAgree (addPairToGroup s ri rj gid) s := by
  have h1 : pathsAgree
      (s.setRecord ri { s.getRecord ri with similarity_group := some gid }) s :=
    pathsAgree_setRecord _ _ _ rfl
  have h2 : pathsAgree
      ((s.setRecord ri { s.getRecord ri with similarity_group := some gid }).setRecord
        rj { (s.setRecord ri
            { s.getRecord ri with similarity_group := some gid }).getRecord rj with
          similarity_group := some gid })
      (s.setRecord ri { s.getRecord ri with similarity_group := some gid }) :=
    pathsAgree_setRecord _ _ _ rfl
  have h3 : ∀ q : ℕ,
      (((s.setRecord ri { s.getRecord ri with similarity_group := some gid }).setRecord
        rj { (s.setRecord ri
            { s.getRecord ri with similarity_group := some gid }).getRecord rj with
          similarity_group := some gid }).getRecord q).path = ((s.getRecord q).path) :=
    fun q => (h2 q).trans (h1 q)
  intro q
  simp only [addPairToGroup]
  repeat' split
  all_goals exact h3 q

theorem processPair_pathsAgree (simFn : String → String → Except Unit ℚ)
    (pyHash : String → ℤ) (name : String) (files : List ℕ) (t : FileScanner)
    (ij : ℕ × ℕ) :
    pathsAgree (processPair simFn pyHash name files t ij) t := by
  simp only [processPair]
  split
  · exact pathsAgree_refl t
  · split
    · exact pathsAgree_refl t
    · split
      · exact addPairToGroup_pathsAgree _ _ _ _
      · exact pathsAgree_refl t

/-! ### C5: errors during a pair's similarity computation -/

theorem processPair_error_id (simFn : String → String → Except Unit ℚ)
    (pyHash : String → ℤ) (name : String) (files : List ℕ) (t : FileScanner)
    (ij : ℕ × ℕ) (e : Unit)
    (herr : simFn ((t.getRecord (files.getD ij.1 0)).path)
        ((t.getRecord (files.getD ij.2 0)).path) = .error e) :
    processPair simFn pyHash name files t ij = t := by
  simp only [processPair]
  split
  · rfl
  · rw [herr]

theorem foldPairs_skip_errors (simFn : String → String → Except Unit ℚ)
    (pyHash : String → ℤ) (name : String) (files : List ℕ) (t : FileScanner) :
    ∀ (pairs : List (ℕ × ℕ)) (u : FileScanner), pathsAgree u t →
      pairs.foldl (processPair simFn pyHash name files) u =
      (pairs.filter (fun ij =>
          (simFn ((t.getRecord (files.getD ij.1 0)).path)
                 ((t.getRecord (files.getD ij.2 0)).path)).isOk)).foldl
        (processPair simFn pyHash name files) u := by
  intro pairs
  induction pairs with
  | nil => intro u _; rfl
  | cons ij rest ih =>
      intro u hu
      by_cases hok : (simFn ((t.getRecord (files.getD ij.1 0)).path)
          ((t.getRecord (files.getD ij.2 0)).path)).isOk = true
      · have hfil : (ij :: rest).filter (fun ij =>
            (simFn ((t.getRecord (files.getD ij.1 0)).path)
                   ((t.getRecord (files.getD ij.2 0)).path)).isOk)
            = ij :: rest.filter (fun ij =>
            (simFn ((t.getRecord (files.getD ij.1 0)).path)
                   ((t.getRecord (files.getD ij.2 0)).path)).isOk) :=
          List.filter_cons_of_pos hok
        rw [hfil]
        simp only [List.foldl_cons]
        exact ih (processPair simFn pyHash name files u ij)
          (pathsAgree_trans (processPair_pathsAgree _ _ _ _ _ _) hu)
      · obtain ⟨e, herr⟩ : ∃ e, simFn ((t.getRecord (files.getD ij.1 0)).path)
            ((t.getRecord (files.getD ij.2 0)).path) = .error e := by
          cases hv : simFn ((t.getRecord (files.getD ij.1 0)).path)
              ((t.getRecord (files.getD ij.2 0)).path) with
          | error e => exact ⟨e, rfl⟩
          | ok v => rw [hv] at hok; exact absurd rfl hok
        have hid : processPair simFn pyHash name files u ij = u := by
          refine processPair_error_id simFn pyHash name files u ij e ?_
          rw [hu (files.getD ij.1 0), hu (files.getD ij.2 0)]
          exact herr
        have hfil : (ij :: rest).filter (fun ij =>
            (simFn ((t.getRecord (files.getD ij.1 0)).path)
                   ((t.getRecord (files.getD ij.2 0)).path)).isOk)
            = rest.filter (fun ij =>
            (simFn ((t.getRecord (files.getD ij.1 0)).path)
                   ((t.getRecord (files.getD ij.2 0)).path)).isOk) :=
          List.filter_cons_of_neg hok
        rw [hfil, List.foldl_cons, hid]
        exact ih u hu

/-- C5 (amended): inside `_group_similar_pdfs`, a pair whose similarity
computation raises is caught by the `except` and treated as not similar —
the state is unchanged at that pair and every remaining pair is still
processed, so the whole run equals the run over the non-raising pairs only.
(The original claim's clause that the final byte-block tier itself never
raises is refuted by `hash_tier_raises_on_missing_file`: an unreadable file
makes the fallback tier itself raise; that exception, too, is caught by this
loop.) -/
theorem grouping_skips_error_pairs :
    (∀ (simFn : String → String → Except Unit ℚ) (pyHash : String → ℤ)
       (name : String) (files : List ℕ) (t : FileScanner) (ij : ℕ × ℕ) (e : Unit),
       simFn ((t.getRecord (files.getD ij.1 0)).path)
           ((t.getRecord (files.getD ij.2 0)).path) = .error e →
       processPair simFn pyHash name files t ij = t) ∧
    (∀ (simFn : String → String → Except Unit ℚ) (pyHash : String → ℤ)
       (name : String) (files : List ℕ) (t : FileScanner) (pairs : List (ℕ × ℕ)),
       pairs.foldl (processPair simFn pyHash name files) t =
       (pairs.filter (fun ij =>
           (simFn ((t.getRecord (files.getD ij.1 0)).path)
                  ((t.getRecord (files.getD ij.2 0)).path)).isOk)).foldl
         (processPair simFn pyHash name files) t) := by
  refine ⟨processPair_error_id, ?_⟩
  intro simFn pyHash name files t pairs
  exact foldPairs_skip_errors simFn pyHash name files t pairs t (pathsAgree_refl t)

/-- C5 counterexample to the claim as stated: the final byte-block tier is
not raise-free — on a vanished/unreadable file, `get_file_blocks`'s `open`
raises and the exception propagates out of `calculate_pdf_similarity` (both
text tiers having failed). -/
theorem hash_tier_raises_on_missing_file :
    calculate_similarity_hash_based encStr (fun _ => none) "a.pdf" "b.pdf"
      = .error () ∧
    calculate_pdf_similarity (fun _ _ => .error ()) (fun _ _ => .error ())
      encStr (fun _ => none) "a.pdf" "b.pdf" = .error () :=
  ⟨rfl, rfl⟩

/-- Witness for C5: a pair whose similarity computation raises leaves the
session unchanged. -/
theorem grouping_skips_error_pairs_witness :
    processPair (fun _ _ => Except.error ()) (fun _ => 0) "doc.pdf" [0, 1]
      demoScanner (0, 1) = demoScanner :=
  grouping_skips_error_pairs.1 (fun _ _ => Except.error ()) (fun _ => 0)
    "doc.pdf" [0, 1] demoScanner (0, 1) () rfl

/-! ### C1: reported duplicate groups have at least two members -/

theorem mem_alistSet {α : Type} (m : List (String × α)) (k : String) (v : α)
    (e : String × α) (he : e ∈ alistSet m k v) : e ∈ m ∨ e = (k, v) := by
  induction m with
  | nil => simpa [alistSet] using he
  | cons hd tl ih =>
      obtain ⟨a, w⟩ := hd
      simp only [alistSet] at he
      split at he
      · rcases List.mem_cons.mp he with h | h
        · exact Or.inr h
        · exact Or.inl (List.mem_cons_of_mem _ h)
      · rcases List.mem_cons.mp he with h | h
        · exact Or.inl (h ▸ List.mem_cons_self _ _)
        · rcases ih h with h2 | h2
          · exact Or.inl (List.mem_cons_of_mem _ h2)
          · exact Or.inr h2

theorem mem_fold_alistSet_min_size :
    ∀ (L : List (String × List ℕ)) (r0 : List (String × List ℕ)),
      (∀ e ∈ r0, 2 ≤ e.2.length) →
      ∀ e ∈ L.foldl
          (fun r entry =>
            if entry.2.length > 1 then alistSet r entry.1 entry.2 else r) r0,
        2 ≤ e.2.length := by
  intro L
  induction L with
  | nil => intro r0 h0 e he; exact h0 e he
  | cons hd tl ih =>
      intro r0 h0 e he
      simp only [List.foldl_cons] at he
      refine ih _ ?_ e he
      intro e2 he2
      by_cases hlen : hd.2.length > 1
      · rw [if_pos hlen] at he2
        rcases mem_alistSet _ _ _ _ he2 with h | h
        · exact h0 e2 h
        · rw [h]; exact hlen
      · rw [if_neg hlen] at he2
        exact h0 e2 he2

/-- C1: every group `getDuplicateGroups` returns — hash-keyed or
similarity-keyed — has at least 2 member records; no group of size `< 2` is
ever reported. -/
theorem getDuplicateGroups_min_size (s : FileScanner) (k : String)
    (files : List ℕ) (h : (k, files) ∈ get_duplicate_groups s) :
    2 ≤ files.length := by
  simp only [get_duplicate_groups] at h
  refine mem_fold_alistSet_min_size s.similarity_groups _ ?_ (k, files) h
  refine mem_fold_alistSet_min_size s.duplicate_map [] ?_
  intro e2 he2
  exact absurd he2 (List.not_mem_nil e2)

/-- Witness for C1: the session with two byte-identical files reports their
group, and the theorem yields its size bound. -/
theorem getDuplicateGroups_min_size_witness :
    (encStr [1], [0, 1]) ∈ get_duplicate_groups demoDupScanner ∧
    2 ≤ ([0, 1] : List ℕ).length :=
  ⟨by decide,
   getDuplicateGroups_min_size demoDupScanner (encStr [1]) [0, 1] (by decide)⟩

/-! ### C4: recycle-bin paths are inventoried (code bug) -/

/-- C4: evaluation at the failing input.  `inventory_files` applies no
directory exclusion whatsoever: when the walk enumerates a file inside
`$RECYCLE.BIN` under the scanned root (as `os.walk` does), the file IS
added to the inventory, although the spec — and the application's own UI
text ("excludes Recycle Bin & system folders") — promise such paths never
appear. -/
theorem inventory_includes_recycle_bin :
    demoRecycleScan.file_inventory = [0] ∧
    (demoRecycleScan.getRecord 0).path = "C:/base/$RECYCLE.BIN/junk.txt" := by
  decide

/-! ### C3 counterexample: a record listed under two similarity-group ids -/

/-- C3 counterexample: four same-named PDFs with distinct hashes, where
pairs (0,2), (1,3), (2,3) score above threshold.  Pair (0,2) mints group
`sim_0_0_2`; pair (1,3) mints group `sim_0_1_3`; pair (2,3) then reuses
record 2's id and appends record 3 to `sim_0_0_2` WITHOUT removing it from
`sim_0_1_3` — record 3 ends up listed under two different similarity-group
ids, refuting the claim. -/
theorem groupSimilar_double_listing :
    alistGet demoSim4.similarity_groups "sim_0_0_2" = some [0, 2, 3] ∧
    alistGet demoSim4.similarity_groups "sim_0_1_3" = some [1, 3] ∧
    (3 : ℕ) ∈ [0, 2, 3] ∧ (3 : ℕ) ∈ [1, 3] ∧ "sim_0_0_2" ≠ "sim_0_1_3" := by
  decide

/-! ### C10: the name index is never reset across inventory runs -/

theorem alistGet_alistAppend {α : Type} (m : List (String × List α))
    (k k' : String) (v : α) :
    alistGet (alistAppend m k v) k'
      = if k = k' then some ((alistGet m k).getD [] ++ [v])
        else alistGet m k' := by
  induction m with
  | nil =>
      simp only [alistAppend, alistGet]
      by_cases h : k = k'
      · rw [if_pos h, if_pos h]
        rfl
      · rw [if_neg h, if_neg h]
  | cons hd tl ih =>
      obtain ⟨a, w⟩ := hd
      simp only [alistAppend]
      by_cases ha : a = k
      · subst ha
        rw [if_pos rfl]
        simp only [alistGet, if_pos rfl]
        by_cases h2 : a = k'
        · rw [if_pos h2, if_pos h2]
          rfl
        · rw [if_neg h2, if_neg h2, if_neg h2]
      · rw [if_neg ha]
        simp only [alistGet]
        by_cases h2 : a = k'
        · have hkk : ¬ k = k' := fun h => ha (h2.trans h.symm)
          rw [if_pos h2, if_neg hkk, if_pos h2]
        · rw [if_neg h2, if_neg h2, ih, if_neg ha]

theorem alistGet_extends_alistAppend {α : Type} (m : List (String × List α))
    (k0 : String) (v : α) (k : String) (l : List α)
    (hl : alistGet m k = some l) :
    ∃ l2, alistGet (alistAppend m k0 v) k = some (l ++ l2) := by
  rw [alistGet_alistAppend]
  by_cases h : k0 = k
  · subst h
    rw [if_pos rfl, hl]
    exact ⟨[v], rfl⟩
  · rw [if_neg h]
    exact ⟨[], by rw [List.append_nil]; exact hl⟩

theorem inventoryStep_nameMap_extends (statFn : String → Option (ℕ × ℤ))
    (root : String) (s : FileScanner) (fn : String) (k : String) (l : List ℕ)
    (hl : alistGet s.name_map k = some l) :
    ∃ l2, alistGet (inventoryStep statFn root s fn).name_map k = some (l ++ l2) := by
  simp only [inventoryStep]
  split
  · exact ⟨[], by rw [List.append_nil]; exact hl⟩
  · split
    · exact ⟨[], by rw [List.append_nil]; exact hl⟩
    · exact alistGet_extends_alistAppend _ _ _ _ _ hl

theorem foldl_nameMap_extends {β : Type} (step : FileScanner → β → FileScanner)
    (hstep : ∀ (t : FileScanner) (b : β) (k : String) (l : List ℕ),
      alistGet t.name_map k = some l →
      ∃ l2, alistGet ((step t b).name_map) k = some (l ++ l2)) :
    ∀ (L : List β) (t : FileScanner) (k : String) (l : List ℕ),
      alistGet t.name_map k = some l →
      ∃ l2, alistGet ((L.foldl step t).name_map) k = some (l ++ l2) := by
  intro L
  induction L with
  | nil =>
      intro t k l hl
      exact ⟨[], by rw [List.append_nil]; exact hl⟩
  | cons b bs ih =>
      intro t k l hl
      simp only [List.foldl_cons]
      obtain ⟨l2, h2⟩ := hstep t b k l hl
      obtain ⟨l3, h3⟩ := ih (step t b) k (l ++ l2) h2
      exact ⟨l2 ++ l3, by rw [← List.append_assoc]; exact h3⟩

theorem inventory_files_nameMap_extends (walk : List (String × List String))
    (statFn : String → Option (ℕ × ℤ)) (s : FileScanner) (k : String)
    (l : List ℕ) (hl : alistGet s.name_map k = some l) :
    ∃ l2, alistGet (inventory_files walk statFn s).name_map k = some (l ++ l2) := by
  simp only [inventory_files]
  refine foldl_nameMap_extends _ ?_ walk { s with file_inventory := [] } k l hl
  intro t entry k2 l2 hl2
  split
  · exact ⟨[], by rw [List.append_nil]; exact hl2⟩
  · exact foldl_nameMap_extends (inventoryStep statFn entry.1)
      (fun t2 b2 k3 l3 hl3 => inventoryStep_nameMap_extends statFn entry.1 t2 b2 k3 l3 hl3)
      entry.2 t k2 l2 hl2

/-- C10: `inventory_files` resets the inventory but never clears the name
index — every list already recorded under a filename is only ever extended;
concretely, inventorying the same one-file directory twice lists the file's
two records under its name (same path twice), the fresh inventory holds only
the second record, and `get_identical_names` then reports the single on-disk
file as a group of "identical names" with itself. -/
theorem inventory_rerun_name_map_growth :
    (∀ (walk : List (String × List String)) (statFn : String → Option (ℕ × ℤ))
       (s : FileScanner) (k : String) (l : List ℕ),
       alistGet s.name_map k = some l →
       ∃ l2, alistGet (inventory_files walk statFn s).name_map k = some (l ++ l2)) ∧
    demoScanner2.file_inventory = [1] ∧
    alistGet demoScanner2.name_map "a.txt" = some [0, 1] ∧
    (demoScanner2.getRecord 0).path = (demoScanner2.getRecord 1).path ∧
    get_identical_names demoScanner2 = [("a.txt", [0, 1])] :=
  ⟨inventory_files_nameMap_extends, by decide, by decide, by decide, by decide⟩

/-- Witness for C10: the universally quantified part applied to the one-file
session. -/
theorem inventory_rerun_name_map_growth_witness :
    ∃ l2, alistGet (inventory_files [("b", ["a.txt"])] demoStat demoScanner).name_map
      "a.txt" = some ([0] ++ l2) :=
  inventory_rerun_name_map_growth.1 [("b", ["a.txt"])] demoStat demoScanner
    "a.txt" [0] (by decide)

/-! ### Generic fold preservation and processStep effects -/

theorem foldl_preserve {α β : Type} (step : α → β → α) (P : α → Prop)
    (hstep : ∀ t b, P t → P (step t b)) :
    ∀ (L : List β) (t : α), P t → P (L.foldl step t) := by
  intro L
  induction L with
  | nil => intro t ht; exact ht
  | cons b bs ih =>
      intro t ht
      simp only [List.foldl_cons]
      exact ih (step t b) (hstep t b ht)

theorem processStep_name_map (readFn : String → Option (List ℕ))
    (md5hex : List ℕ → String) (acc : FileScanner × List (ℕ × String)) (rid : ℕ) :
    (processStep readFn md5hex acc rid).1.name_map = acc.1.name_map := by
  simp only [processStep]
  split
  · rfl
  · rfl

theorem processStep_similarity_groups (readFn : String → Option (List ℕ))
    (md5hex : List ℕ → String) (acc : FileScanner × List (ℕ × String)) (rid : ℕ) :
    (processStep readFn md5hex acc rid).1.similarity_groups
      = acc.1.similarity_groups := by
  simp only [processStep]
  split
  · rfl
  · rfl

theorem processStep_pathsAgree (readFn : String → Option (List ℕ))
    (md5hex : List ℕ → String) (acc : FileScanner × List (ℕ × String)) (rid : ℕ) :
    pathsAgree (processStep readFn md5hex acc rid).1 acc.1 := by
  cases hr : readFn ((acc.1.getRecord rid).path) with
  | none =>
      simp only [processStep, hr]
      exact pathsAgree_refl _
  | some c =>
      simp only [processStep, hr]
      intro q
      exact pathsAgree_setRecord acc.1 rid
        { acc.1.getRecord rid with
          content_hash := some (calculate_file_hash md5hex c) } rfl q

theorem dmapRids_cons (a : String) (w : List ℕ) (tl : List (String × List ℕ)) :
    dmapRids ((a, w) :: tl) = w ++ dmapRids tl := by
  simp [dmapRids]

theorem count_singleton_ite (x v : ℕ) :
    List.count x [v] = if x = v then 1 else 0 := by
  by_cases h : x = v
  · subst h; simp
  · rw [if_neg h]; simp [List.count_cons, h]

theorem count_dmapRids_alistAppend (m : List (String × List ℕ)) (k : String)
    (v : ℕ) (x : ℕ) :
    (dmapRids (alistAppend m k v)).count x
      = (dmapRids m).count x + (if x = v then 1 else 0) := by
  induction m with
  | nil =>
      simp only [alistAppend, dmapRids, List.map_cons, List.map_nil,
        List.flatten_cons, List.flatten_nil, List.append_nil, List.count_nil,
        count_singleton_ite]
      omega
  | cons hd tl ih =>
      obtain ⟨a, w⟩ := hd
      simp only [alistAppend]
      split
      · simp only [dmapRids_cons, List.count_append, count_singleton_ite]
        omega
      · simp only [dmapRids_cons, List.count_append, ih]
        omega

theorem processStep_dmap_count (readFn : String → Option (List ℕ))
    (md5hex : List ℕ → String) (acc : FileScanner × List (ℕ × String))
    (rid : ℕ) (x : ℕ) :
    (dmapRids (processStep readFn md5hex acc rid).1.duplicate_map).count x
      = (dmapRids acc.1.duplicate_map).count x
        + (if x = rid ∧ (readFn ((acc.1.getRecord rid).path)).isSome then 1 else 0) := by
  cases hr : readFn ((acc.1.getRecord rid).path) with
  | none =>
      simp only [processStep, hr]
      rw [if_neg (by simp)]
      omega
  | some c =>
      simp only [processStep, hr]
      show (dmapRids (alistAppend acc.1.duplicate_map
          (calculate_file_hash md5hex c) rid)).count x = _
      rw [count_dmapRids_alistAppend]
      by_cases h : x = rid
      · rw [if_pos h, if_pos (show x = rid ∧ (some c).isSome = true from ⟨h, rfl⟩)]
      · rw [if_neg h, if_neg (show ¬(x = rid ∧ (some c).isSome = true) from
          fun hh => h hh.1)]

theorem processFold_dmap_count (readFn : String → Option (List ℕ))
    (md5hex : List ℕ → String) (s0 : FileScanner) :
    ∀ (l : List ℕ) (acc : FileScanner × List (ℕ × String)),
      pathsAgree acc.1 s0 → ∀ x : ℕ,
      (dmapRids ((l.foldl (processStep readFn md5hex) acc).1.duplicate_map)).count x
        = (dmapRids acc.1.duplicate_map).count x
          + (l.filter (fun rid =>
              decide (x = rid) && (readFn ((s0.getRecord rid).path)).isSome)).length := by
  intro l
  induction l with
  | nil => intro acc _ x; simp
  | cons rid rest ih =>
      intro acc hagree x
      simp only [List.foldl_cons, List.filter_cons]
      rw [ih (processStep readFn md5hex acc rid)
        (pathsAgree_trans (processStep_pathsAgree readFn md5hex acc rid) hagree) x]
      rw [processStep_dmap_count]
      have hpath : (acc.1.getRecord rid).path = (s0.getRecord rid).path := hagree rid
      rw [hpath]
      by_cases hcond : x = rid ∧ (readFn ((s0.getRecord rid).path)).isSome = true
      · rw [if_pos hcond]
        rw [if_pos (by simp [hcond.1, hcond.2])]
        simp only [List.length_cons]
        omega
      · rw [if_neg hcond]
        rw [if_neg (by
          intro hb
          simp only [Bool.and_eq_true, decide_eq_true_eq] at hb
          exact hcond hb)]
        omega

/-! ### The similarity grouping leaves the other registries untouched -/

theorem addPairToGroup_duplicate_map (s : FileScanner) (ri rj : ℕ) (gid : String) :
    (addPairToGroup s ri rj gid).duplicate_map = s.duplicate_map := by
  simp only [addPairToGroup]
  repeat' split
  all_goals rfl

theorem addPairToGroup_name_map (s : FileScanner) (ri rj : ℕ) (gid : String) :
    (addPairToGroup s ri rj gid).name_map = s.name_map := by
  simp only [addPairToGroup]
  repeat' split
  all_goals rfl

theorem processPair_duplicate_map (simFn : String → String → Except Unit ℚ)
    (pyHash : String → ℤ) (name : String) (files : List ℕ) (t : FileScanner)
    (ij : ℕ × ℕ) :
    (processPair simFn pyHash name files t ij).duplicate_map = t.duplicate_map := by
  simp only [processPair]
  repeat' split
  all_goals first
    | rfl
    | exact addPairToGroup_duplicate_map _ _ _ _

theorem processPair_name_map (simFn : String → String → Except Unit ℚ)
    (pyHash : String → ℤ) (name : String) (files : List ℕ) (t : FileScanner)
    (ij : ℕ × ℕ) :
    (processPair simFn pyHash name files t ij).name_map = t.name_map := by
  simp only [processPair]
  repeat' split
  all_goals first
    | rfl
    | exact addPairToGroup_name_map _ _ _ _

theorem group_similar_pdfs_duplicate_map (simFn : String → String → Except Unit ℚ)
    (pyHash : String → ℤ) (t : FileScanner) :
    (group_similar_pdfs simFn pyHash t).duplicate_map = t.duplicate_map := by
  simp only [group_similar_pdfs]
  split
  · rfl
  · refine foldl_preserve _ (fun u => u.duplicate_map = t.duplicate_map) ?_
      t.name_map t rfl
    intro u entry hu
    split
    · exact hu
    · refine foldl_preserve _ (fun w => w.duplicate_map = t.duplicate_map) ?_
        (pairList entry.2.length) u hu
      intro w ij hw
      rw [processPair_duplicate_map]
      exact hw

theorem group_similar_pdfs_name_map (simFn : String → String → Except Unit ℚ)
    (pyHash : String → ℤ) (t : FileScanner) :
    (group_similar_pdfs simFn pyHash t).name_map = t.name_map := by
  simp only [group_similar_pdfs]
  split
  · rfl
  · refine foldl_preserve _ (fun u => u.name_map = t.name_map) ?_
      t.name_map t rfl
    intro u entry hu
    split
    · exact hu
    · refine foldl_preserve _ (fun w => w.name_map = t.name_map) ?_
        (pairList entry.2.length) u hu
      intro w ij hw
      rw [processPair_name_map]
      exact hw

/-! ### The hashing pass, fully characterised -/

theorem processFold_yields (readFn : String → Option (List ℕ))
    (md5hex : List ℕ → String) (s0 : FileScanner) :
    ∀ (l : List ℕ) (acc : FileScanner × List (ℕ × String)),
      pathsAgree acc.1 s0 →
      (l.foldl (processStep readFn md5hex) acc).2
        = acc.2 ++ l.filterMap (fun rid =>
            (readFn ((s0.getRecord rid).path)).map
              (fun c => (rid, calculate_file_hash md5hex c))) := by
  intro l
  induction l with
  | nil => intro acc _; simp
  | cons rid rest ih =>
      intro acc hagree
      simp only [List.foldl_cons, List.filterMap_cons]
      have hpath : (acc.1.getRecord rid).path = (s0.getRecord rid).path := hagree rid
      cases hr : readFn ((s0.getRecord rid).path) with
      | none =>
          have hstep : processStep readFn md5hex acc rid = acc := by
            simp only [processStep, hpath, hr]
          rw [hstep]
          exact ih acc hagree
      | some c =>
          have hstep2 : (processStep readFn md5hex acc rid).2
              = acc.2 ++ [(rid, calculate_file_hash md5hex c)] := by
            simp only [processStep, hpath, hr]
          rw [ih (processStep readFn md5hex acc rid)
            (pathsAgree_trans (processStep_pathsAgree readFn md5hex acc rid) hagree),
            hstep2, Option.map_some', List.append_assoc, List.singleton_append]

theorem filter_eq_and_length (l : List ℕ) (hnodup : l.Nodup) (x : ℕ)
    (hx : x ∈ l) (p : ℕ → Bool) (hp : p x = true) :
    (l.filter (fun q => decide (x = q) && p q)).length = 1 := by
  induction l with
  | nil => cases hx
  | cons a as ih =>
      rcases List.mem_cons.mp hx with h | h
      · subst h
        rw [List.filter_cons_of_pos (by simp [hp])]
        have hnotin : x ∉ as := (List.nodup_cons.mp hnodup).1
        have hnil : as.filter (fun q => decide (x = q) && p q) = [] := by
          rw [List.filter_eq_nil_iff]
          intro b hb
          simp only [Bool.and_eq_true, decide_eq_true_eq, not_and]
          intro hxb
          exact absurd (hxb ▸ hb) hnotin
        rw [hnil]
        rfl
      · have hxa : ¬ x = a := by
          intro he
          exact absurd (he ▸ h) (List.nodup_cons.mp hnodup).1
        rw [List.filter_cons_of_neg (by simp [hxa])]
        exact ih (List.nodup_cons.mp hnodup).2 h

/-! ### C2: the hashing pass re-hashes and re-inserts on every run -/

set_option maxRecDepth 8000 in
/-- C2 counterexample: `process_files` walks the WHOLE inventory each time
(there is no "not yet hashed" guard), so fully consuming the generator twice
on the same session inserts record 0 under its (single) hash key a second
time — after the rerun the entry holds the record twice, refuting "resuming
or re-running never inserts an already-hashed record a second time". -/
theorem processFiles_rerun_double_insert :
    alistGet demoRerun1.duplicate_map (encStr ("b/a.txt".toList.map Char.toNat))
      = some [0] ∧
    alistGet demoRerun2.duplicate_map (encStr ("b/a.txt".toList.map Char.toNat))
      = some [0, 0] := by
  decide

/-- C2 (amended): within a single run on a fresh session (empty
exact-duplicate index, duplicate-free inventory), every record whose file is
readable is inserted into the exact-duplicate index under exactly one hash
key with exactly one entry; but the pass hashes every inventory record on
each run, so re-running the generator inserts already-hashed records again
(`processFiles_rerun_double_insert`). -/
theorem processFiles_single_run_unique_entry
    (readFn : String → Option (List ℕ)) (md5hex : List ℕ → String)
    (simFn : String → String → Except Unit ℚ) (pyHash : String → ℤ)
    (s : FileScanner) (hd : s.duplicate_map = [])
    (hnodup : s.file_inventory.Nodup) (rid : ℕ) (hmem : rid ∈ s.file_inventory)
    (hread : (readFn ((s.getRecord rid).path)).isSome = true) :
    (dmapRids (process_files readFn md5hex simFn pyHash s).1.duplicate_map).count rid
      = 1 := by
  simp only [process_files]
  rw [group_similar_pdfs_duplicate_map]
  rw [processFold_dmap_count readFn md5hex s s.file_inventory (s, [])
    (pathsAgree_refl s) rid]
  have h0 : (dmapRids (s, (List.nil : List (ℕ × String))).1.duplicate_map).count rid
      = 0 := by
    show (dmapRids s.duplicate_map).count rid = 0
    rw [hd]
    rfl
  rw [h0, filter_eq_and_length s.file_inventory hnodup rid hmem
    (fun q => (readFn ((s.getRecord q).path)).isSome) hread]

/-- Witness for C2's amended theorem on the one-file session. -/
theorem processFiles_single_run_unique_entry_witness :
    (dmapRids (process_files demoRead encStr demoSimZero demoHash
        demoScanner).1.duplicate_map).count 0 = 1 :=
  processFiles_single_run_unique_entry demoRead encStr demoSimZero demoHash
    demoScanner (by decide) (by decide) 0 (by decide) (by decide)

/-! ### C6: a record whose hash fails is skipped, not expunged -/

/-- C6 counterexample: a record whose hash computation fails (unreadable
file) is NOT excluded from every index of the scan session: it is still
listed in the name index (and the inventory) after `process_files`, because
those were populated at inventory time and never cleaned. -/
theorem failed_hash_record_still_in_name_index :
    demoBadRead ((demoMixedResult.1.getRecord 0).path) = none ∧
    alistGet demoMixedResult.1.name_map "bad.txt" = some [0] ∧
    demoMixedResult.1.file_inventory = [0, 1] := by
  decide

/-- C6 (amended): a record whose hash computation fails is skipped — it is
never inserted into the exact-duplicate index — and processing continues:
every readable record is still hashed and yielded; the hashing pass leaves
the name index exactly as the inventory phase built it (so the failed record
remains there and in the inventory). -/
theorem processFiles_skips_unreadable_and_continues
    (readFn : String → Option (List ℕ)) (md5hex : List ℕ → String)
    (simFn : String → String → Except Unit ℚ) (pyHash : String → ℤ)
    (s : FileScanner) (hd : s.duplicate_map = []) :
    (process_files readFn md5hex simFn pyHash s).1.name_map = s.name_map ∧
    (∀ rid ∈ s.file_inventory, readFn ((s.getRecord rid).path) = none →
       (dmapRids (process_files readFn md5hex simFn pyHash s).1.duplicate_map).count
         rid = 0) ∧
    (∀ rid ∈ s.file_inventory, ∀ c : List ℕ,
       readFn ((s.getRecord rid).path) = some c →
       (rid, calculate_file_hash md5hex c)
         ∈ (process_files readFn md5hex simFn pyHash s).2) := by
  refine ⟨?_, ?_, ?_⟩
  · simp only [process_files]
    rw [group_similar_pdfs_name_map]
    have : ∀ (l : List ℕ) (acc : FileScanner × List (ℕ × String)),
        (l.foldl (processStep readFn md5hex) acc).1.name_map = acc.1.name_map := by
      intro l
      induction l with
      | nil => intro acc; rfl
      | cons rid rest ih =>
          intro acc
          simp only [List.foldl_cons]
          rw [ih (processStep readFn md5hex acc rid),
            processStep_name_map]
    exact this s.file_inventory (s, [])
  · intro rid hmem hnone
    simp only [process_files]
    rw [group_similar_pdfs_duplicate_map]
    rw [processFold_dmap_count readFn md5hex s s.file_inventory (s, [])
      (pathsAgree_refl s) rid]
    have h0 : (dmapRids (s, (List.nil : List (ℕ × String))).1.duplicate_map).count rid
        = 0 := by
      show (dmapRids s.duplicate_map).count rid = 0
      rw [hd]
      rfl
    rw [h0]
    have hnil : s.file_inventory.filter (fun q =>
        decide (rid = q) && (readFn ((s.getRecord q).path)).isSome) = [] := by
      rw [List.filter_eq_nil_iff]
      intro b hb
      simp only [Bool.and_eq_true, decide_eq_true_eq, not_and]
      intro hrb
      subst hrb
      rw [hnone]
      simp
    rw [hnil]
    rfl
  · intro rid hmem c hread
    simp only [process_files]
    rw [processFold_yields readFn md5hex s s.file_inventory (s, [])
      (pathsAgree_refl s)]
    show (rid, calculate_file_hash md5hex c) ∈ [] ++ _
    rw [List.nil_append, List.mem_filterMap]
    exact ⟨rid, hmem, by rw [hread]; rfl⟩

/-- Witness for C6's amended theorem: the unreadable record 0 never enters
the exact-duplicate index, while the readable record 1 is still hashed and
yielded. -/
theorem processFiles_skips_unreadable_and_continues_witness :
    (dmapRids demoMixedResult.1.duplicate_map).count 0 = 0 ∧
    (1, calculate_file_hash encStr [7]) ∈ demoMixedResult.2 :=
  ⟨(processFiles_skips_unreadable_and_continues demoBadRead encStr demoSimZero
      demoHash (inventory_files [("b", ["bad.txt", "good.txt"])] demoStat
        { base_directory := "b" }) (by decide)).2.1 0 (by decide) (by decide),
   (processFiles_skips_unreadable_and_continues demoBadRead encStr demoSimZero
      demoHash (inventory_files [("b", ["bad.txt", "good.txt"])] demoStat
        { base_directory := "b" }) (by decide)).2.2 1 (by decide) [7] (by decide)⟩

/-! ### C3: shape of the similarity index after grouping -/

theorem alistGet_append_right {α : Type} (m1 m2 : List (String × α)) (g : String) :
    alistGet (m1 ++ m2) g
      = match alistGet m1 g with
        | some v => some v
        | none => alistGet m2 g := by
  induction m1 with
  | nil => simp [alistGet]
  | cons hd tl ih =>
      obtain ⟨a, w⟩ := hd
      simp only [List.cons_append, alistGet]
      by_cases h : a = g
      · simp [h]
      · simp only [if_neg h]
        exact ih

theorem ensure_key_nodup (t : FileScanner) (gid : String)
    (hP : ∀ g l, alistGet t.similarity_groups g = some l → l.Nodup) :
    ∀ g l, alistGet ((if (alistGet t.similarity_groups gid).isSome then t
        else { t with
          similarity_groups := t.similarity_groups ++ [(gid, [])] }).similarity_groups)
      g = some l → l.Nodup := by
  split
  · exact hP
  · intro g l hl
    rw [show ({ t with similarity_groups := t.similarity_groups ++ [(gid, [])] }
        : FileScanner).similarity_groups = t.similarity_groups ++ [(gid, [])]
      from rfl, alistGet_append_right] at hl
    cases hm : alistGet t.similarity_groups g with
    | some v =>
        rw [hm] at hl
        exact (Option.some.inj hl) ▸ hP g v hm
    | none =>
        rw [hm] at hl
        simp only [alistGet] at hl
        by_cases hg : gid = g
        · rw [if_pos hg] at hl
          exact (Option.some.inj hl) ▸ List.nodup_nil
        · rw [if_neg hg] at hl
          cases hl

theorem guarded_append_nodup (t : FileScanner) (gid : String) (r : ℕ)
    (hP : ∀ g l, alistGet t.similarity_groups g = some l → l.Nodup) :
    ∀ g l, alistGet
      ((if ((((alistGet t.similarity_groups gid).getD []).map t.getRecord).contains
            (t.getRecord r)) then t
        else { t with
          similarity_groups := alistAppend t.similarity_groups gid r }).similarity_groups)
      g = some l → l.Nodup := by
  split
  · exact hP
  · next hguard =>
      intro g l hl
      rw [show ({ t with similarity_groups := alistAppend t.similarity_groups gid r }
          : FileScanner).similarity_groups = alistAppend t.similarity_groups gid r
        from rfl, alistGet_alistAppend] at hl
      by_cases hg : gid = g
      · rw [if_pos hg] at hl
        rw [← Option.some.inj hl]
        have hcur : ((alistGet t.similarity_groups gid).getD []).Nodup := by
          cases hm : alistGet t.similarity_groups gid with
          | some v => simpa using hP gid v hm
          | none => exact List.nodup_nil
        have hnotin : r ∉ ((alistGet t.similarity_groups gid).getD []) := by
          intro hmem
          exact hguard (List.elem_iff.mpr (List.mem_map_of_mem t.getRecord hmem))
        rw [List.nodup_append]
        refine ⟨hcur, List.nodup_singleton r, ?_⟩
        intro a ha hb
        rw [List.mem_singleton.mp hb] at ha
        exact hnotin ha
      · rw [if_neg hg] at hl
        exact hP g l hl

theorem addPairToGroup_nodup (s : FileScanner) (ri rj : ℕ) (gid : String)
    (hP : ∀ g l, alistGet s.similarity_groups g = some l → l.Nodup) :
    ∀ g l, alistGet (addPairToGroup s ri rj gid).similarity_groups g = some l →
      l.Nodup :=
  guarded_append_nodup _ gid rj
    (guarded_append_nodup _ gid ri (ensure_key_nodup _ gid hP))

theorem processPair_nodup (simFn : String → String → Except Unit ℚ)
    (pyHash : String → ℤ) (name : String) (files : List ℕ) (t : FileScanner)
    (ij : ℕ × ℕ)
    (hP : ∀ g l, alistGet t.similarity_groups g = some l → l.Nodup) :
    ∀ g l, alistGet (processPair simFn pyHash name files t ij).similarity_groups g
      = some l → l.Nodup := by
  simp only [processPair]
  repeat' split
  all_goals first
    | exact hP
    | exact addPairToGroup_nodup _ _ _ _ hP

theorem group_similar_pdfs_nodup (simFn : String → String → Except Unit ℚ)
    (pyHash : String → ℤ) (t : FileScanner)
    (hP : ∀ g l, alistGet t.similarity_groups g = some l → l.Nodup) :
    ∀ g l, alistGet (group_similar_pdfs simFn pyHash t).similarity_groups g
      = some l → l.Nodup := by
  simp only [group_similar_pdfs]
  split
  · exact hP
  · refine foldl_preserve _
      (fun u => ∀ g l, alistGet u.similarity_groups g = some l → l.Nodup) ?_
      t.name_map t hP
    intro u entry hu
    split
    · exact hu
    · refine foldl_preserve _
        (fun w => ∀ g l, alistGet w.similarity_groups g = some l → l.Nodup) ?_
        (pairList entry.2.length) u hu
      intro w ij hw
      exact processPair_nodup simFn pyHash entry.1 entry.2 w ij hw

/-- C3 (amended): after the similarity grouping pass of a fresh scan session
each similarity-index entry lists a record at most once, and a record's
`similarity_group` field holds at most one id at a time; but — contrary to
the claim — a record CAN be listed under two different similarity-group ids
when a high-similarity pair bridges two previously separate groups
(`groupSimilar_double_listing`): the first member's id wins and the record
is never removed from the other group's list. -/
theorem similarity_entries_nodup (readFn : String → Option (List ℕ))
    (md5hex : List ℕ → String) (simFn : String → String → Except Unit ℚ)
    (pyHash : String → ℤ) (s : FileScanner)
    (h0 : s.similarity_groups = []) :
    ∀ g l, alistGet
        (process_files readFn md5hex simFn pyHash s).1.similarity_groups g
      = some l → l.Nodup := by
  simp only [process_files]
  have hsims : ∀ (l : List ℕ) (acc : FileScanner × List (ℕ × String)),
      (l.foldl (processStep readFn md5hex) acc).1.similarity_groups
        = acc.1.similarity_groups := by
    intro l
    induction l with
    | nil => intro acc; rfl
    | cons rid rest ih =>
        intro acc
        simp only [List.foldl_cons]
        rw [ih (processStep readFn md5hex acc rid), processStep_similarity_groups]
  refine group_similar_pdfs_nodup simFn pyHash _ ?_
  intro g l hl
  rw [hsims s.file_inventory (s, []), h0] at hl
  cases hl

/-- Witness for C3's amended theorem: the bridged group list of the four-PDF
scenario has no repeated record. -/
theorem similarity_entries_nodup_witness : ([0, 2, 3] : List ℕ).Nodup :=
  similarity_entries_nodup demoRead4 encStr demoSimPairs demoHash
    (inventory_files demoWalk4 demoStat { base_directory := "base" }) (by decide)
    "sim_0_0_2" [0, 2, 3] (by decide)

/-! ### C9: duplicate detection and auto-organize in the live monitor -/

theorem find_dest_eq (hasFile : String → Bool) (org fn : String) (k0 : ℕ)
    (hfree : hasFile (organize_candidate org fn k0) = false)
    (htaken : ∀ j, j < k0 → hasFile (organize_candidate org fn j) = true) :
    ∀ (fuel k : ℕ), k ≤ k0 → k0 - k < fuel →
      find_dest hasFile org fn k fuel = organize_candidate org fn k0 := by
  intro fuel
  induction fuel with
  | zero =>
      intro k _ hlt
      exact absurd hlt (Nat.not_lt_zero _)
  | succ fuel ih =>
      intro k hk hlt
      by_cases hkk : k = k0
      · subst hkk
        simp only [find_dest, hfree]
        rfl
      · have hklt : k < k0 := lt_of_le_of_ne hk hkk
        simp only [find_dest, htaken k hklt]
        exact ih (k + 1) hklt (by omega)

/-- C9: while the monitor is running, an event for a file whose hash is
already in the Monitor Index logs a duplicate-detected event, and with
auto-organize enabled the file is moved into the organize folder under the
first collision-free name — the original filename if free, else the name
with numeric suffix `_k` before the extension for the least free `k` — and
the relocation outcome is logged.  (`fuel` bounds the unbounded collision
loop; any bound beyond the first free index gives the loop's result.) -/
theorem monitor_duplicate_logged_and_organized
    (fuel : ℕ) (md5hex : List ℕ → String) (mtimeFn : String → ℤ)
    (fs : String → Option (List ℕ)) (m : FileMonitor) (file_path : String)
    (content : List ℕ) (dup : FileInfo) (k0 : ℕ)
    (hread : fs file_path = some content)
    (hknown : alistGet m.known_files (calculate_file_hash md5hex content)
      = some dup)
    (hauto : m.auto_organize = true)
    (hfree : (fs (organize_candidate m.organize_path (basename file_path) k0)).isSome
      = false)
    (htaken : ∀ j, j < k0 →
      (fs (organize_candidate m.organize_path (basename file_path) j)).isSome = true)
    (hfuel : k0 < fuel) :
    ("Duplicate detected: " ++ basename file_path ++ " matches " ++ dup.name)
        ∈ (process_new_file fuel md5hex mtimeFn fs m file_path).1.activity_log ∧
    ("Organized duplicate: " ++ basename file_path ++ " → "
        ++ organize_candidate m.organize_path (basename file_path) k0)
        ∈ (process_new_file fuel md5hex mtimeFn fs m file_path).1.activity_log ∧
    (process_new_file fuel md5hex mtimeFn fs m file_path).2
        (organize_candidate m.organize_path (basename file_path) k0)
      = some content ∧
    (file_path ≠ organize_candidate m.organize_path (basename file_path) k0 →
      (process_new_file fuel md5hex mtimeFn fs m file_path).2 file_path = none) := by
  have hdest : find_dest (fun p => (fs p).isSome) m.organize_path
      (basename file_path) 0 fuel
      = organize_candidate m.organize_path (basename file_path) k0 :=
    find_dest_eq (fun p => (fs p).isSome) m.organize_path (basename file_path) k0
      hfree htaken fuel 0 (Nat.zero_le k0) (by omega)
  simp only [process_new_file, hread, hknown, organize_duplicate,
    FileMonitor.logActivity, hauto, if_true, hdest]
  refine ⟨?_, ?_, ?_, ?_⟩
  · simp [List.mem_append]
  · simp [List.mem_append]
  · trivial
  · intro hne
    rw [if_neg hne]

/-- Witness for C9: the monitor detects the duplicate `d/y.bin` of the known
`x.bin`, and organizes it as `y_2.bin` because `y.bin` and `y_1.bin` are
taken at the destination. -/
theorem monitor_duplicate_logged_and_organized_witness :
    ("Duplicate detected: " ++ basename "d/y.bin" ++ " matches "
        ++ demoKnownInfo.name)
      ∈ (process_new_file 10 encStr (fun _ => 0) demoMonFs demoMonitor
          "d/y.bin").1.activity_log ∧
    ("Organized duplicate: " ++ basename "d/y.bin" ++ " → "
        ++ organize_candidate demoMonitor.organize_path (basename "d/y.bin") 2)
      ∈ (process_new_file 10 encStr (fun _ => 0) demoMonFs demoMonitor
          "d/y.bin").1.activity_log ∧
    (process_new_file 10 encStr (fun _ => 0) demoMonFs demoMonitor "d/y.bin").2
        (organize_candidate demoMonitor.organize_path (basename "d/y.bin") 2)
      = some [9] ∧
    ("d/y.bin" ≠ organize_candidate demoMonitor.organize_path (basename "d/y.bin") 2 →
      (process_new_file 10 encStr (fun _ => 0) demoMonFs demoMonitor "d/y.bin").2
        "d/y.bin" = none) :=
  monitor_duplicate_logged_and_organized 10 encStr (fun _ => 0) demoMonFs
    demoMonitor "d/y.bin" [9] demoKnownInfo 2 (by decide) (by decide) rfl
    (by decide) (by decide) (by decide)
